import Mathlib

set_option maxRecDepth 8000

/-! Shallow embedding of the core of `ethcontract-rs`: the library linker of
`src/contract/link.rs` and the transaction signer of `src/sign.rs`.  Web3
transport, contract contexts and the ABI constructor encoding are out of
scope; the `Bytecode` collaborator from `ethcontract-common` is modelled from
the spec since its source is not given. -/

/-- Modelled from the spec: a 20-byte Ethereum address (`web3::types::Address`
is the fixed-size byte array `H160`, not part of the given sources). -/
abbrev Address : Type := { l : List Nat // l.length = 20 }

/-- Modelled from the spec: one unit of compiled bytecode, either a concrete
byte or one named 20-byte library placeholder slot.  The
`ethcontract_common::Bytecode` source is not given; the spec describes it as
an opaque binary with zero or more named placeholder slots. -/
inductive BytecodeItem : Type
  | byte (b : Nat)
  | placeholder (name : String)
deriving DecidableEq

/-- Modelled from the spec: compiled bytecode with named placeholder slots. -/
abbrev Bytecode : Type := List BytecodeItem

/-- The names of the placeholder slots of a bytecode, one entry per slot
occurrence, in order of occurrence. -/
def placeholderNames (bc : Bytecode) : List String :=
  bc.filterMap fun i =>
    match i with
    | .placeholder n => some n
    | .byte _ => none

/-- Drop repeated later occurrences, keeping the first occurrence of each
element; `seen` collects the elements already emitted. -/
def dedupFirstAux : List String → List String → List String
  | [], _ => []
  | x :: xs, seen =>
    if x ∈ seen then dedupFirstAux xs seen
    else x :: dedupFirstAux xs (x :: seen)

/-- The distinct elements of a list in order of first occurrence. -/
def dedupFirst (l : List String) : List String :=
  dedupFirstAux l []

/-- Modelled from the spec: `Bytecode::undefined_libraries`, the distinct
names of the remaining unresolved placeholder slots, in order of first
occurrence in the bytecode. -/
def Bytecode.undefined_libraries (bc : Bytecode) : List String :=
  dedupFirst (placeholderNames bc)

/-- The linker errors of `ethcontract::errors::LinkerError` that the given
sources exercise.  The tests in `src/contract/link.rs`
(`link_same_library_more_than_once`, `link_missing_library`) pin the failure
surfaced from `Bytecode::link` for a name with no remaining placeholder slot
to `UnusedDependency`. -/
inductive LinkerError : Type
  | unusedDependency (name : String)
  | missingDependency (name : String)
  | nestedDependencies (name : String)
deriving DecidableEq

/-- Substitute every placeholder slot named `name` by the 20 address bytes. -/
def Bytecode.subst : Bytecode → String → Address → Bytecode
  | [], _, _ => []
  | .byte b :: rest, name, addr => .byte b :: Bytecode.subst rest name addr
  | .placeholder n :: rest, name, addr =>
    (if n = name then addr.val.map BytecodeItem.byte else [.placeholder n])
      ++ Bytecode.subst rest name addr

/-- Modelled from the spec: `Bytecode::link` substitutes a library address
into every placeholder slot with the given name, in place, and fails when no
such slot remains (the unknown-placeholder link failure, which the linker
tests observe as `UnusedDependency`). -/
def Bytecode.link (bc : Bytecode) (name : String) (addr : Address) :
    Except LinkerError Bytecode :=
  if name ∈ placeholderNames bc then .ok (bc.subst name addr)
  else .error (.unusedDependency name)

/-- Whether an item is a placeholder slot. -/
def BytecodeItem.isSlot : BytecodeItem → Bool
  | .placeholder _ => true
  | .byte _ => false

/-- Modelled from the spec: `Bytecode::to_bytes` converts the bytecode to a
dense byte sequence, failing if any placeholder slot remains unresolved. -/
def Bytecode.to_bytes (bc : Bytecode) : Option (List Nat) :=
  if bc.any BytecodeItem.isSlot then none
  else
    some (bc.filterMap fun i =>
      match i with
      | .byte b => some b
      | .placeholder _ => none)

/-- `Library` from `src/contract/link.rs`: a library entry is either already
deployed at a known address or pending deployment with its own bytecode. -/
inductive Library : Type
  | Resolved (address : Address)
  | Pending (bytecode : Bytecode)
deriving DecidableEq

/-- `Linker` from `src/contract/link.rs`, restricted to the fields its `link`
step reads (the `web3` handle, deploy context and phantom type parameter play
no part in linking). -/
structure Linker : Type where
  contract_bytecode : Bytecode
  encoded_contructor_params : List Nat
  libraries : List (String × Library)
deriving DecidableEq

/-- `Deployment` from `src/contract/link.rs`. -/
structure Deployment : Type where
  libraries : List (String × List Nat)
  contract : Bytecode × List Nat
deriving DecidableEq

/-- First loop of `Linker::link`: walk the accumulated entries in order,
linking each `Resolved` entry into the contract bytecode at once and moving
each `Pending` entry into the pending-library map, failing with
`UnusedDependency` on a duplicate pending name.  The Rust `HashMap` is
modelled as an association list in insertion order. -/
def linkEntries :
    List (String × Library) → Bytecode → List (String × Bytecode) →
      Except LinkerError (Bytecode × List (String × Bytecode))
  | [], bc, pend => .ok (bc, pend)
  | (name, .Resolved addr) :: rest, bc, pend =>
    match bc.link name addr with
    | .ok bc' => linkEntries rest bc' pend
    | .error e => .error e
  | (name, .Pending code) :: rest, bc, pend =>
    if name ∈ pend.map Prod.fst then .error (.unusedDependency name)
    else linkEntries rest bc (pend ++ [(name, code)])

/-- Second loop of `Linker::link`: for every placeholder name still undefined
in the contract bytecode, remove its entry from the pending map
(`MissingDependency` if absent), convert the pending bytecode to dense bytes
(`NestedDependencies` if it still has placeholder slots of its own), and
collect `(name, bytes)` in placeholder order. -/
def collectDeps :
    List String → List (String × Bytecode) →
      Except LinkerError (List (String × List Nat) × List (String × Bytecode))
  | [], pend => .ok ([], pend)
  | lib :: rest, pend =>
    match pend.find? (fun p => p.1 == lib) with
    | some (name, code) =>
      match code.to_bytes with
      | some bytes =>
        match collectDeps rest (pend.eraseP (fun p => p.1 == lib)) with
        | .ok (libs, pend') => .ok ((name, bytes) :: libs, pend')
        | .error e => .error e
      | none => .error (.nestedDependencies name)
    | none => .error (.missingDependency lib)

/-- `Linker::link` from `src/contract/link.rs`: run both loops, then fail
with `UnusedDependency` on the first leftover pending entry, otherwise return
the deployment of the collected libraries and the linked contract bytecode
paired with the encoded constructor parameters. -/
def Linker.link (l : Linker) : Except LinkerError Deployment :=
  match linkEntries l.libraries l.contract_bytecode [] with
  | .error e => .error e
  | .ok (bc, pend) =>
    match collectDeps bc.undefined_libraries pend with
    | .error e => .error e
    | .ok (libs, pendLeft) =>
      match pendLeft with
      | [] =>
        .ok { libraries := libs, contract := (bc, l.encoded_contructor_params) }
      | (name, _) :: _ => .error (.unusedDependency name)

/-- The all-zero address, `Address::zero()`. -/
def zeroAddress : Address := ⟨List.replicate 20 0, rfl⟩

/-- `Address::repeat_byte(b)`. -/
def repeatAddress (b : Nat) : Address := ⟨List.replicate 20 b, rfl⟩

/-- The target bytecode of the `link_contract` test: two `Library0` slots and
one slot each for `Library1` and `Library2`, with a distinct byte before
each slot. -/
def testContractBytecode : Bytecode :=
  [.byte 0, .placeholder "Library0",
   .byte 0, .placeholder "Library0",
   .byte 1, .placeholder "Library1",
   .byte 2, .placeholder "Library2"]

/-- The linker configured by the `link_contract` test: `Library0` resolved to
the zero address, `Library1` pending with bytecode `0x00`, `Library2`
resolved to the address repeating byte `0x02`. -/
def testLinker : Linker :=
  { contract_bytecode := testContractBytecode
    encoded_contructor_params := []
    libraries :=
      [("Library0", .Resolved zeroAddress),
       ("Library1", .Pending [.byte 0]),
       ("Library2", .Resolved (repeatAddress 2))] }

/-! ## Transaction signer (`src/sign.rs`) -/

/-- `2^64`, the modulus of Rust `u64` arithmetic. -/
def u64Size : Nat := 2 ^ 64

/-- The big-endian integer value of a byte sequence. -/
def natOfBytes : List Nat → Nat
  | [] => 0
  | b :: bs => b * 256 ^ bs.length + natOfBytes bs

/-- The minimal big-endian byte encoding of a natural number: no leading zero
byte, with `0` encoded as the empty sequence.  This is how the `rlp` crate
appends `U256`/`u64` integer values, and how the spec describes integer
fields. -/
def beBytes (n : Nat) : List Nat :=
  if n = 0 then [] else beBytes (n / 256) ++ [n % 256]
decreasing_by exact Nat.div_lt_self (Nat.pos_of_ne_zero (by assumption)) (by omega)

/-- RLP encoding of one byte-string item. -/
def rlpStr : List Nat → List Nat
  | [b] => if b < 128 then [b] else [129, b]
  | bs =>
    if bs.length ≤ 55 then (128 + bs.length) :: bs
    else (183 + (beBytes bs.length).length) :: (beBytes bs.length ++ bs)

/-- RLP encoding of a list whose items are byte strings. -/
def rlpList (items : List (List Nat)) : List Nat :=
  let payload := (items.map rlpStr).flatten
  if payload.length ≤ 55 then (192 + payload.length) :: payload
  else (247 + (beBytes payload.length).length) :: (beBytes payload.length ++ payload)

/-- `TransactionData` from `src/sign.rs`.  The four `U256` fields are values
below `2^256`; `data` is the raw call-data bytes. -/
structure TransactionData : Type where
  nonce : Nat
  gas_price : Nat
  gas : Nat
  «to» : Option Address
  value : Nat
  data : List Nat
deriving DecidableEq

/-- The byte-string content of the recipient field: the 20 raw address bytes,
or the empty string appended for `None` (`s.append(&"")`). -/
def toField : Option Address → List Nat
  | some a => a.val
  | none => []

/-- `TransactionData::rlp_append_unsigned` from `src/sign.rs`, at the level
of the list of byte-string field contents: 6 fields, or 9 fields with
`[chain_id, 0, 0]` appended when a chain id is present (`0` as an integer is
the empty byte string). -/
def TransactionData.rlp_append_unsigned (tx : TransactionData)
    (chain_id : Option Nat) : List (List Nat) :=
  [beBytes tx.nonce, beBytes tx.gas_price, beBytes tx.gas,
   toField tx.«to», beBytes tx.value, tx.data]
    ++ (match chain_id with
        | some n => [beBytes (n % u64Size), [], []]
        | none => [])

/-- `add_chain_replay_protection` from `src/sign.rs`:
`recovery_id + (35 + chain_id * 2)` with a chain id, `recovery_id + 27`
without; every operation is Rust `u64` arithmetic, modelled modulo `2^64`. -/
def add_chain_replay_protection (recovery_id : Nat) (chain_id : Option Nat) :
    Nat :=
  (recovery_id +
      match chain_id with
      | some n => (35 + (n * 2) % u64Size) % u64Size
      | none => 27) %
    u64Size

/-- `TransactionData::rlp_append_signed` from `src/sign.rs`, at the level of
the list of byte-string field contents: the 9 fields
`[nonce, gas_price, gas, to_or_empty, value, data, v, r, s]`, where `r` and
`s` are the `U256` values of the first and second 32 bytes of the compact
signature and are appended as integers. -/
def TransactionData.rlp_append_signed (tx : TransactionData)
    (recovery_id : Nat) (sig : List Nat) (chain_id : Option Nat) :
    List (List Nat) :=
  [beBytes tx.nonce, beBytes tx.gas_price, beBytes tx.gas,
   toField tx.«to», beBytes tx.value, tx.data,
   beBytes (add_chain_replay_protection recovery_id chain_id),
   beBytes (natOfBytes (sig.take 32)),
   beBytes (natOfBytes ((sig.drop 32).take 32))]

/-- The names of the `Resolved` entries of a configuration, in encounter
order. -/
def resolvedNames (entries : List (String × Library)) : List String :=
  entries.filterMap fun e =>
    match e.2 with
    | .Resolved _ => some e.1
    | .Pending _ => none

/-- The `Pending` entries of a configuration, in encounter order. -/
def pendingEntries (entries : List (String × Library)) :
    List (String × Bytecode) :=
  entries.filterMap fun e =>
    match e.2 with
    | .Pending c => some (e.1, c)
    | .Resolved _ => none

/-- Modelled from the spec: `TransactionData::sign` hashes the RLP-encoded
unsigned payload with keccak-256 and signs it with recoverable secp256k1
ECDSA; both primitives are external, so they are abstracted as an oracle
from the unsigned payload bytes to a recovery id and a 64-byte compact
signature.  The result is the RLP encoding of the signed 9-field list. -/
def TransactionData.sign (tx : TransactionData)
    (ecdsa : List Nat → Nat × List Nat) (chain_id : Option Nat) : List Nat :=
  let unsigned := rlpList (tx.rlp_append_unsigned chain_id)
  let result := ecdsa unsigned
  rlpList (tx.rlp_append_signed result.1 result.2 chain_id)

/-! ## Lemmas about the bytecode model -/

theorem placeholderNames_append (a b : Bytecode) :
    placeholderNames (a ++ b) = placeholderNames a ++ placeholderNames b := by
  simp [placeholderNames]

theorem placeholderNames_bytes (l : List Nat) :
    placeholderNames (l.map BytecodeItem.byte) = [] := by
  induction l with
  | nil => rfl
  | cons b bs ih => simp [placeholderNames, List.filterMap_cons]

theorem placeholderNames_cons_byte (b : Nat) (rest : Bytecode) :
    placeholderNames (.byte b :: rest) = placeholderNames rest := by
  simp [placeholderNames, List.filterMap_cons]

theorem placeholderNames_cons_slot (n : String) (rest : Bytecode) :
    placeholderNames (.placeholder n :: rest) = n :: placeholderNames rest := by
  simp [placeholderNames, List.filterMap_cons]

theorem placeholderNames_subst (bc : Bytecode) (name : String)
    (addr : Address) :
    placeholderNames (bc.subst name addr) =
      (placeholderNames bc).filter (fun n => n != name) := by
  induction bc with
  | nil => rfl
  | cons i rest ih =>
    cases i with
    | byte b =>
      simp only [Bytecode.subst]
      rw [placeholderNames_cons_byte, placeholderNames_cons_byte, ih]
    | placeholder n =>
      by_cases h : n = name
      · subst h
        simp only [Bytecode.subst, eq_self_iff_true, if_true]
        rw [placeholderNames_append, placeholderNames_bytes,
          placeholderNames_cons_slot, List.nil_append, ih]
        simp
      · simp only [Bytecode.subst, if_neg h, List.singleton_append]
        rw [placeholderNames_cons_slot, placeholderNames_cons_slot, ih]
        simp [List.filter_cons, h]

theorem Bytecode.link_ok (bc : Bytecode) (name : String) (addr : Address)
    (bc' : Bytecode) (h : bc.link name addr = .ok bc') :
    name ∈ placeholderNames bc ∧
      placeholderNames bc' = (placeholderNames bc).filter (fun n => n != name) := by
  unfold Bytecode.link at h
  split at h
  · injection h with h
    subst h
    exact ⟨by assumption, placeholderNames_subst ..⟩
  · cases h

theorem any_isSlot_eq_false_iff (bc : Bytecode) :
    bc.any BytecodeItem.isSlot = false ↔ placeholderNames bc = [] := by
  induction bc with
  | nil => simp [placeholderNames]
  | cons i rest ih =>
    cases i <;>
      simp [placeholderNames, List.filterMap_cons, BytecodeItem.isSlot, ih]

theorem dedupFirst_eq_nil_iff (l : List String) : dedupFirst l = [] ↔ l = [] := by
  cases l with
  | nil => simp [dedupFirst, dedupFirstAux]
  | cons x xs => simp [dedupFirst, dedupFirstAux]

theorem to_bytes_isSome_iff (bc : Bytecode) :
    (bc.to_bytes).isSome = true ↔ bc.undefined_libraries = [] := by
  unfold Bytecode.to_bytes Bytecode.undefined_libraries
  by_cases h : bc.any BytecodeItem.isSlot
  · have hne : placeholderNames bc ≠ [] := by
      intro hnil
      rw [← any_isSlot_eq_false_iff] at hnil
      simp [h] at hnil
    simp [h, dedupFirst_eq_nil_iff, hne]
  · have hnil : placeholderNames bc = [] := (any_isSlot_eq_false_iff bc).mp (by simpa using h)
    simp [h, dedupFirst_eq_nil_iff, hnil]

theorem dedupFirstAux_congr :
    ∀ (l s₁ s₂ : List String), (∀ y ∈ l, (y ∈ s₁ ↔ y ∈ s₂)) →
      dedupFirstAux l s₁ = dedupFirstAux l s₂ := by
  intro l
  induction l with
  | nil => intros; rfl
  | cons x xs ih =>
    intro s₁ s₂ hs
    have hx := hs x (by simp)
    by_cases h1 : x ∈ s₁
    · have h2 : x ∈ s₂ := hx.mp h1
      simp only [dedupFirstAux, if_pos h1, if_pos h2]
      exact ih _ _ fun y hy => hs y (by simp [hy])
    · have h2 : x ∉ s₂ := fun hh => h1 (hx.mpr hh)
      simp only [dedupFirstAux, if_neg h1, if_neg h2]
      refine congrArg _ (ih _ _ fun y hy => ?_)
      simp only [List.mem_cons]
      rw [hs y (by simp [hy])]

theorem dedupFirstAux_filter (p : String → Bool) :
    ∀ (l s : List String),
      dedupFirstAux (l.filter p) s = (dedupFirstAux l s).filter p := by
  intro l
  induction l with
  | nil => intro s; rfl
  | cons x xs ih =>
    intro s
    by_cases hp : p x
    · by_cases hx : x ∈ s
      · rw [List.filter_cons_of_pos hp]
        simp only [dedupFirstAux, if_pos hx]
        exact ih s
      · rw [List.filter_cons_of_pos hp]
        simp only [dedupFirstAux, if_neg hx]
        rw [List.filter_cons_of_pos hp, ih (x :: s)]
    · have hpx : p x = false := by simpa using hp
      have hcongr :
          dedupFirstAux (xs.filter p) s = dedupFirstAux (xs.filter p) (x :: s) := by
        refine dedupFirstAux_congr _ _ _ fun y hy => ?_
        have hpy : p y = true := (List.mem_filter.mp hy).2
        have hyx : y ≠ x := by
          intro he
          rw [he] at hpy
          rw [hpy] at hpx
          cases hpx
        simp [List.mem_cons, hyx]
      by_cases hx : x ∈ s
      · rw [List.filter_cons_of_neg (by simp [hpx])]
        simp only [dedupFirstAux, if_pos hx]
        exact ih s
      · rw [List.filter_cons_of_neg (by simp [hpx])]
        simp only [dedupFirstAux, if_neg hx]
        rw [List.filter_cons_of_neg (by simp [hpx]), hcongr]
        exact ih (x :: s)

theorem dedupFirst_filter (p : String → Bool) (l : List String) :
    dedupFirst (l.filter p) = (dedupFirst l).filter p :=
  dedupFirstAux_filter p l []

/-! ## Lemmas about the two loops of `Linker::link` -/

theorem linkEntries_append (a b : List (String × Library)) :
    ∀ (bc : Bytecode) (pend : List (String × Bytecode)),
      linkEntries (a ++ b) bc pend =
        match linkEntries a bc pend with
        | .ok s => linkEntries b s.1 s.2
        | .error e => .error e := by
  induction a with
  | nil => intro bc pend; rfl
  | cons e rest ih =>
    intro bc pend
    obtain ⟨name, lib⟩ := e
    cases lib with
    | Resolved addr =>
      simp only [List.cons_append, linkEntries]
      cases bc.link name addr with
      | ok bc' => exact ih bc' pend
      | error er => rfl
    | Pending code =>
      simp only [List.cons_append, linkEntries]
      by_cases h : name ∈ pend.map Prod.fst
      · simp only [if_pos h]
      · simp only [if_neg h]
        exact ih bc (pend ++ [(name, code)])

theorem linkEntries_ok_pend (entries : List (String × Library)) :
    ∀ (bc : Bytecode) (pend : List (String × Bytecode)) (bc' : Bytecode)
      (pend' : List (String × Bytecode)),
      linkEntries entries bc pend = .ok (bc', pend') →
      pend' = pend ++ pendingEntries entries := by
  induction entries with
  | nil =>
    intro bc pend bc' pend' h
    injection h with h
    injection h with h1 h2
    simp [pendingEntries, ← h2]
  | cons e rest ih =>
    intro bc pend bc' pend' h
    obtain ⟨name, lib⟩ := e
    cases lib with
    | Resolved addr =>
      simp only [linkEntries] at h
      cases hl : bc.link name addr with
      | ok bc1 =>
        rw [hl] at h
        rw [ih bc1 pend bc' pend' h]
        simp [pendingEntries, List.filterMap_cons]
      | error er => rw [hl] at h; cases h
    | Pending code =>
      simp only [linkEntries] at h
      by_cases hm : name ∈ pend.map Prod.fst
      · rw [if_pos hm] at h; cases h
      · rw [if_neg hm] at h
        rw [ih bc (pend ++ [(name, code)]) bc' pend' h]
        simp [pendingEntries, List.filterMap_cons]

theorem linkEntries_ok_placeholders (entries : List (String × Library)) :
    ∀ (bc : Bytecode) (pend : List (String × Bytecode)) (bc' : Bytecode)
      (pend' : List (String × Bytecode)),
      linkEntries entries bc pend = .ok (bc', pend') →
      placeholderNames bc' =
        (placeholderNames bc).filter
          (fun n => decide (n ∉ resolvedNames entries)) := by
  induction entries with
  | nil =>
    intro bc pend bc' pend' h
    injection h with h
    injection h with h1 h2
    simp [resolvedNames, ← h1]
  | cons e rest ih =>
    intro bc pend bc' pend' h
    obtain ⟨name, lib⟩ := e
    cases lib with
    | Resolved addr =>
      simp only [linkEntries] at h
      cases hl : bc.link name addr with
      | ok bc1 =>
        rw [hl] at h
        have hbc1 := (Bytecode.link_ok bc name addr bc1 hl).2
        rw [ih bc1 pend bc' pend' h, hbc1, List.filter_filter]
        have hres : resolvedNames ((name, Library.Resolved addr) :: rest) =
            name :: resolvedNames rest := by
          simp [resolvedNames, List.filterMap_cons]
        rw [hres]
        refine List.filter_congr fun n _ => ?_
        by_cases h1 : n = name <;> by_cases h2 : n ∈ resolvedNames rest <;>
          simp [h1, h2]
      | error er => rw [hl] at h; cases h
    | Pending code =>
      simp only [linkEntries] at h
      by_cases hm : name ∈ pend.map Prod.fst
      · rw [if_pos hm] at h; cases h
      · rw [if_neg hm] at h
        have hres : resolvedNames ((name, Library.Pending code) :: rest) =
            resolvedNames rest := by
          simp [resolvedNames, List.filterMap_cons]
        rw [ih bc (pend ++ [(name, code)]) bc' pend' h, hres]

theorem linkEntries_ok_nodup (entries : List (String × Library)) :
    ∀ (bc : Bytecode) (pend : List (String × Bytecode)) (bc' : Bytecode)
      (pend' : List (String × Bytecode)),
      linkEntries entries bc pend = .ok (bc', pend') →
      (pend.map Prod.fst).Nodup → (pend'.map Prod.fst).Nodup := by
  induction entries with
  | nil =>
    intro bc pend bc' pend' h hnd
    injection h with h
    injection h with h1 h2
    rw [← h2]
    exact hnd
  | cons e rest ih =>
    intro bc pend bc' pend' h hnd
    obtain ⟨name, lib⟩ := e
    cases lib with
    | Resolved addr =>
      simp only [linkEntries] at h
      cases hl : bc.link name addr with
      | ok bc1 =>
        rw [hl] at h
        exact ih bc1 pend bc' pend' h hnd
      | error er => rw [hl] at h; cases h
    | Pending code =>
      simp only [linkEntries] at h
      by_cases hm : name ∈ pend.map Prod.fst
      · rw [if_pos hm] at h; cases h
      · rw [if_neg hm] at h
        refine ih bc (pend ++ [(name, code)]) bc' pend' h ?_
        simp [List.nodup_append, hnd, hm]

theorem collectDeps_append (a b : List String) :
    ∀ (pend : List (String × Bytecode)),
      collectDeps (a ++ b) pend =
        match collectDeps a pend with
        | .ok s =>
          match collectDeps b s.2 with
          | .ok s2 => .ok (s.1 ++ s2.1, s2.2)
          | .error e => .error e
        | .error e => .error e := by
  induction a with
  | nil =>
    intro pend
    simp only [List.nil_append, collectDeps]
    cases collectDeps b pend with
    | ok s2 => rfl
    | error e => rfl
  | cons lib rest ih =>
    intro pend
    simp only [List.cons_append, collectDeps]
    cases hf : pend.find? (fun p => p.1 == lib) with
    | none => rfl
    | some q =>
      obtain ⟨name, code⟩ := q
      dsimp only
      cases hb : code.to_bytes with
      | none => rfl
      | some bytes =>
        dsimp only
        simp only [List.append_eq]
        rw [ih (pend.eraseP (fun p => p.1 == lib))]
        cases collectDeps rest (pend.eraseP (fun p => p.1 == lib)) with
        | error e => rfl
        | ok s =>
          obtain ⟨libs0, pend0⟩ := s
          dsimp only
          cases collectDeps b pend0 with
          | error e => rfl
          | ok s2 => rfl

theorem collectDeps_ok_names (names : List String) :
    ∀ (pend : List (String × Bytecode)) (libs : List (String × List Nat))
      (pend' : List (String × Bytecode)),
      collectDeps names pend = .ok (libs, pend') →
      libs.map Prod.fst = names := by
  induction names with
  | nil =>
    intro pend libs pend' h
    injection h with h
    injection h with h1 h2
    simp [← h1]
  | cons lib rest ih =>
    intro pend libs pend' h
    simp only [collectDeps] at h
    cases hf : pend.find? (fun p => p.1 == lib) with
    | none => rw [hf] at h; cases h
    | some q =>
      obtain ⟨name, code⟩ := q
      rw [hf] at h
      dsimp only at h
      cases hb : code.to_bytes with
      | none => rw [hb] at h; cases h
      | some bytes =>
        rw [hb] at h
        dsimp only at h
        cases hr : collectDeps rest (pend.eraseP (fun p => p.1 == lib)) with
        | error e => rw [hr] at h; cases h
        | ok s =>
          obtain ⟨libs0, pend0⟩ := s
          rw [hr] at h
          dsimp only at h
          injection h with h
          injection h with h1 h2
          have hname : name = lib := by
            have := List.find?_some hf
            simpa using this
          rw [← h1]
          simp [hname, ih _ _ _ hr]

theorem collectDeps_ok_sublist (names : List String) :
    ∀ (pend : List (String × Bytecode)) (libs : List (String × List Nat))
      (pend' : List (String × Bytecode)),
      collectDeps names pend = .ok (libs, pend') →
      pend'.Sublist pend := by
  induction names with
  | nil =>
    intro pend libs pend' h
    injection h with h
    injection h with h1 h2
    rw [← h2]
  | cons lib rest ih =>
    intro pend libs pend' h
    simp only [collectDeps] at h
    cases hf : pend.find? (fun p => p.1 == lib) with
    | none => rw [hf] at h; cases h
    | some q =>
      obtain ⟨name, code⟩ := q
      rw [hf] at h
      dsimp only at h
      cases hb : code.to_bytes with
      | none => rw [hb] at h; cases h
      | some bytes =>
        rw [hb] at h
        dsimp only at h
        cases hr : collectDeps rest (pend.eraseP (fun p => p.1 == lib)) with
        | error e => rw [hr] at h; cases h
        | ok s =>
          obtain ⟨libs0, pend0⟩ := s
          rw [hr] at h
          dsimp only at h
          injection h with h
          injection h with h1 h2
          rw [← h2]
          exact (ih _ _ _ hr).trans (List.eraseP_sublist pend)

theorem keys_eraseP_ne (k : String) :
    ∀ (pend : List (String × Bytecode)), (pend.map Prod.fst).Nodup →
      ∀ x ∈ pend.eraseP (fun p => p.1 == k), x.1 = k → False := by
  intro pend
  induction pend with
  | nil => intro _ x hx; cases hx
  | cons q rest ih =>
    obtain ⟨n, c⟩ := q
    intro hnd x hx hxk
    by_cases hn : n = k
    · rw [List.eraseP_cons_of_pos (by simp [hn])] at hx
      simp only [List.map_cons, List.nodup_cons] at hnd
      have hmem : x.1 ∈ rest.map Prod.fst := List.mem_map_of_mem Prod.fst hx
      rw [hxk, ← hn] at hmem
      exact hnd.1 hmem
    · rw [List.eraseP_cons_of_neg (by simp [hn])] at hx
      rcases List.mem_cons.mp hx with he | hm
      · rw [he] at hxk
        exact hn hxk
      · have hnd' : (rest.map Prod.fst).Nodup := by
          simp only [List.map_cons, List.nodup_cons] at hnd
          exact hnd.2
        exact ih hnd' x hm hxk

theorem collectDeps_ok_leftover (names : List String) :
    ∀ (pend : List (String × Bytecode)) (libs : List (String × List Nat))
      (pend' : List (String × Bytecode)),
      (pend.map Prod.fst).Nodup →
      collectDeps names pend = .ok (libs, pend') →
      ∀ x ∈ pend', x.1 ∉ names := by
  induction names with
  | nil => intro pend libs pend' _ _ x _; simp
  | cons lib rest ih =>
    intro pend libs pend' hnd h x hx
    simp only [collectDeps] at h
    cases hf : pend.find? (fun p => p.1 == lib) with
    | none => rw [hf] at h; cases h
    | some q =>
      obtain ⟨name, code⟩ := q
      rw [hf] at h
      dsimp only at h
      cases hb : code.to_bytes with
      | none => rw [hb] at h; cases h
      | some bytes =>
        rw [hb] at h
        dsimp only at h
        cases hr : collectDeps rest (pend.eraseP (fun p => p.1 == lib)) with
        | error e => rw [hr] at h; cases h
        | ok s =>
          obtain ⟨libs0, pend0⟩ := s
          rw [hr] at h
          dsimp only at h
          injection h with h
          injection h with h1 h2
          rw [← h2] at hx
          have hndE : ((pend.eraseP (fun p => p.1 == lib)).map Prod.fst).Nodup :=
            hnd.sublist ((List.eraseP_sublist pend).map Prod.fst)
          have hrest : x.1 ∉ rest := ih _ _ _ hndE hr x hx
          have hxE : x ∈ pend.eraseP (fun p => p.1 == lib) :=
            (collectDeps_ok_sublist rest _ _ _ hr).mem hx
          have hlib : x.1 ≠ lib := fun he => keys_eraseP_ne lib pend hnd x hxE he
          simp [List.mem_cons, hlib, hrest]

/-! ## Lemmas about `Linker::link` -/

theorem Linker.link_parts (l : Linker) (d : Deployment) (h : l.link = .ok d) :
    ∃ bc pend libs,
      linkEntries l.libraries l.contract_bytecode [] = .ok (bc, pend) ∧
      collectDeps bc.undefined_libraries pend = .ok (libs, []) ∧
      d = ⟨libs, (bc, l.encoded_contructor_params)⟩ := by
  unfold Linker.link at h
  cases h1 : linkEntries l.libraries l.contract_bytecode [] with
  | error e => rw [h1] at h; cases h
  | ok s =>
    obtain ⟨bc, pend⟩ := s
    rw [h1] at h
    dsimp only at h
    cases h2 : collectDeps bc.undefined_libraries pend with
    | error e => rw [h2] at h; cases h
    | ok s2 =>
      obtain ⟨libs, pendLeft⟩ := s2
      rw [h2] at h
      dsimp only at h
      cases pendLeft with
      | nil =>
        injection h with h
        exact ⟨bc, pend, libs, rfl, h2, h.symm⟩
      | cons q restPend =>
        obtain ⟨nm, cd⟩ := q
        dsimp only at h
        cases h

theorem Linker.link_error_step1 (l : Linker) (e : LinkerError)
    (h : linkEntries l.libraries l.contract_bytecode [] = .error e) :
    l.link = .error e := by
  unfold Linker.link
  rw [h]

theorem Linker.link_error_step2 (l : Linker) (bc : Bytecode)
    (pend : List (String × Bytecode)) (e : LinkerError)
    (h1 : linkEntries l.libraries l.contract_bytecode [] = .ok (bc, pend))
    (h2 : collectDeps bc.undefined_libraries pend = .error e) :
    l.link = .error e := by
  unfold Linker.link
  rw [h1]
  dsimp only
  rw [h2]

theorem Linker.link_error_leftover (l : Linker) (bc : Bytecode)
    (pend : List (String × Bytecode)) (libs : List (String × List Nat))
    (nm : String) (cd : Bytecode) (restPend : List (String × Bytecode))
    (h1 : linkEntries l.libraries l.contract_bytecode [] = .ok (bc, pend))
    (h2 : collectDeps bc.undefined_libraries pend =
      .ok (libs, (nm, cd) :: restPend)) :
    l.link = .error (.unusedDependency nm) := by
  unfold Linker.link
  rw [h1]
  dsimp only
  rw [h2]

theorem link_ok_contract_names (l : Linker) (d : Deployment)
    (h : l.link = .ok d) :
    d.contract.1.undefined_libraries = d.libraries.map Prod.fst ∧
      d.contract.2 = l.encoded_contructor_params := by
  obtain ⟨bc, pend, libs, h1, h2, hd⟩ := Linker.link_parts l d h
  subst hd
  exact ⟨(collectDeps_ok_names _ _ _ _ h2).symm, rfl⟩

theorem link_ok_firstOccur (l : Linker) (d : Deployment) (h : l.link = .ok d) :
    d.libraries.map Prod.fst =
      (dedupFirst (placeholderNames l.contract_bytecode)).filter
        (fun n => decide (n ∉ resolvedNames l.libraries)) := by
  obtain ⟨bc, pend, libs, h1, h2, hd⟩ := Linker.link_parts l d h
  subst hd
  have hn := collectDeps_ok_names _ _ _ _ h2
  have hp := linkEntries_ok_placeholders _ _ _ _ _ h1
  dsimp only
  rw [hn]
  unfold Bytecode.undefined_libraries
  rw [hp, dedupFirst_filter]

/-! ## Lemmas about the integer byte encodings -/

theorem natOfBytes_append_singleton (xs : List Nat) (b : Nat) :
    natOfBytes (xs ++ [b]) = 256 * natOfBytes xs + b := by
  induction xs with
  | nil => simp [natOfBytes]
  | cons a rest ih =>
    simp only [List.cons_append, natOfBytes, ih, List.append_eq,
      List.length_append, List.length_cons, List.length_nil]
    rw [pow_succ]
    ring

theorem beBytes_zero : beBytes 0 = [] := by
  rw [beBytes]
  simp

theorem beBytes_pos (n : Nat) (h : n ≠ 0) :
    beBytes n = beBytes (n / 256) ++ [n % 256] := by
  rw [beBytes]
  simp [h]

theorem natOfBytes_beBytes (n : Nat) : natOfBytes (beBytes n) = n := by
  induction n using Nat.strong_induction_on with
  | _ n ih =>
    by_cases h : n = 0
    · subst h
      simp [beBytes_zero, natOfBytes]
    · rw [beBytes_pos n h, natOfBytes_append_singleton,
        ih (n / 256) (Nat.div_lt_self (Nat.pos_of_ne_zero h) (by omega))]
      omega

theorem beBytes_eq_nil_iff (n : Nat) : beBytes n = [] ↔ n = 0 := by
  constructor
  · intro h
    by_cases hn : n = 0
    · exact hn
    · rw [beBytes_pos n hn] at h
      cases List.append_ne_nil_of_right_ne_nil _ (by simp : [n % 256] ≠ []) h
  · intro h
    rw [h]
    exact beBytes_zero

theorem beBytes_head_ne_zero (n : Nat) : (beBytes n).head? ≠ some 0 := by
  induction n using Nat.strong_induction_on with
  | _ n ih =>
    by_cases h : n = 0
    · subst h
      simp [beBytes_zero]
    · rw [beBytes_pos n h]
      by_cases hq : n / 256 = 0
      · have hlt : n < 256 := by omega
        rw [hq, beBytes_zero, List.nil_append]
        simp [Nat.mod_eq_of_lt hlt, h]
      · have hne : beBytes (n / 256) ≠ [] := fun hh => hq ((beBytes_eq_nil_iff _).mp hh)
        rw [List.head?_append_of_ne_nil _ hne]
        exact ih (n / 256) (Nat.div_lt_self (Nat.pos_of_ne_zero h) (by omega))

theorem beBytes_length_le (k : Nat) :
    ∀ n, n < 256 ^ k → (beBytes n).length ≤ k := by
  induction k with
  | zero =>
    intro n hn
    have : n = 0 := by simpa using hn
    simp [this, beBytes_zero]
  | succ k ih =>
    intro n hn
    by_cases h : n = 0
    · simp [h, beBytes_zero]
    · rw [beBytes_pos n h]
      have hq : n / 256 < 256 ^ k := by
        rw [Nat.div_lt_iff_lt_mul (by omega)]
        calc n < 256 ^ (k + 1) := hn
        _ = 256 ^ k * 256 := by rw [pow_succ]
      simpa using ih (n / 256) hq

theorem natOfBytes_lt (l : List Nat) (h : ∀ b ∈ l, b < 256) :
    natOfBytes l < 256 ^ l.length := by
  induction l with
  | nil => simp [natOfBytes]
  | cons b rest ih =>
    have hb : b < 256 := h b (by simp)
    have hr : natOfBytes rest < 256 ^ rest.length :=
      ih fun x hx => h x (by simp [hx])
    simp only [natOfBytes, List.length_cons, pow_succ]
    calc b * 256 ^ rest.length + natOfBytes rest
        < b * 256 ^ rest.length + 256 ^ rest.length := by omega
    _ = (b + 1) * 256 ^ rest.length := by ring
    _ ≤ 256 * 256 ^ rest.length := by
        exact Nat.mul_le_mul_right _ (by omega)
    _ = 256 ^ rest.length * 256 := by ring

/-! ## Concrete fixtures from the test suite -/

/-- A target bytecode with a single `Library0` placeholder slot, as in the
`link_same_library_more_than_once` test. -/
def soloBytecode : Bytecode := [.byte 0, .placeholder "Library0"]

/-- A linker resolving the only placeholder of `soloBytecode`. -/
def allResolvedLinker : Linker :=
  { contract_bytecode := soloBytecode
    encoded_contructor_params := []
    libraries := [("Library0", .Resolved zeroAddress)] }

/-- The deployment produced by `allResolvedLinker`. -/
def allResolvedDeployment : Deployment :=
  { libraries := []
    contract := ([.byte 0] ++ (List.replicate 20 (BytecodeItem.byte 0)), []) }

/-- The deployment produced by `testLinker` (the `link_contract` test). -/
def testDeployment : Deployment :=
  { libraries := [("Library1", [0])]
    contract :=
      ([.byte 0] ++ (List.replicate 20 (BytecodeItem.byte 0)) ++
         [.byte 0] ++ (List.replicate 20 (BytecodeItem.byte 0)) ++
         [.byte 1, .placeholder "Library1"] ++
         [.byte 2] ++ (List.replicate 20 (BytecodeItem.byte 2)),
       []) }

/-- The `testLinker` configuration with its calls permuted. -/
def testLinkerPerm : Linker :=
  { contract_bytecode := testContractBytecode
    encoded_contructor_params := []
    libraries :=
      [("Library2", .Resolved (repeatAddress 2)),
       ("Library0", .Resolved zeroAddress),
       ("Library1", .Pending [.byte 0])] }

/-- Two `Resolved` entries for the same name (first case of the
`link_same_library_more_than_once` test). -/
def dupResolvedLinker : Linker :=
  { contract_bytecode := soloBytecode
    encoded_contructor_params := []
    libraries :=
      [("Library0", .Resolved zeroAddress),
       ("Library0", .Resolved (repeatAddress 1))] }

/-- Two `Pending` entries for the same name (third case of the
`link_same_library_more_than_once` test). -/
def dupPendingLinker : Linker :=
  { contract_bytecode := soloBytecode
    encoded_contructor_params := []
    libraries :=
      [("Library0", .Pending [.byte 0]), ("Library0", .Pending [.byte 0])] }

/-- A pending library never referenced by the contract bytecode (second case
of the `link_missing_library` test). -/
def leftoverLinker : Linker :=
  { contract_bytecode := [.byte 0]
    encoded_contructor_params := []
    libraries := [("Library0", .Pending [.byte 0])] }

/-- A pending library whose own bytecode still has a placeholder (the
`link_nested_dependency` test). -/
def nestedLinker : Linker :=
  { contract_bytecode := soloBytecode
    encoded_contructor_params := []
    libraries := [("Library0", .Pending [.byte 0, .placeholder "Library1"])] }

/-- A placeholder with no entry at all (the `link_unused_library` test). -/
def missingLinker : Linker :=
  { contract_bytecode := soloBytecode
    encoded_contructor_params := []
    libraries := [] }

/-- The recipient address of the spec's signing vector A. -/
def addrA : Address :=
  ⟨[0xf0, 0x10, 0x9f, 0xc8, 0xdf, 0x28, 0x30, 0x27, 0xb6, 0x28,
    0x5c, 0xc8, 0x89, 0xf5, 0xaa, 0x62, 0x4e, 0xac, 0x1f, 0x55], rfl⟩

/-- The transaction of the spec's signing vector A. -/
def txA : TransactionData :=
  { nonce := 0
    gas_price := 234567897654321
    gas := 2000000
    «to» := some addrA
    value := 1000000000
    data := [] }

/-- The contract-creation transaction of the spec's signing vector B. -/
def txB : TransactionData :=
  { nonce := 42
    gas_price := 6000000000
    gas := 2000000
    «to» := none
    value := 0
    data := [0x60, 0x00, 0x80, 0xfd] }

/-- A compact signature whose `r` component has 31 leading zero bytes and
value 1. -/
def sigLeadZero : List Nat :=
  List.replicate 31 0 ++ [1] ++ List.replicate 32 0

/-! ## Claim theorems -/

/-- C1 counterexample: the `link_contract` configuration mixes `Resolved` and
`Pending` entries, `link` succeeds, yet the returned contract bytecode still
has the pending `Library1` placeholder slot and does not convert to dense
bytes, contradicting the claim that the contract component of every
successful build is fully linked. -/
theorem C1_counterexample :
    testLinker.link = .ok testDeployment ∧
      testDeployment.contract.1.undefined_libraries = ["Library1"] ∧
      testDeployment.contract.1.to_bytes = none := by
  refine ⟨by rfl, by rfl, by rfl⟩

/-- C1 (amended): for every `Linker` whose `link` step succeeds and whose
configured entries are all `Resolved` (no `Pending` entry), the contract
component of the returned `Deployment` has zero remaining placeholder slots
and converts to dense bytes without error. -/
theorem C1_all_resolved_fully_linked (l : Linker) (d : Deployment)
    (h : l.link = .ok d)
    (hres : ∀ name code, (name, Library.Pending code) ∉ l.libraries) :
    d.contract.1.undefined_libraries = [] ∧
      (d.contract.1.to_bytes).isSome = true := by
  obtain ⟨bc, pend, libs, h1, h2, hd⟩ := Linker.link_parts l d h
  have hpend : pend = [] := by
    rw [linkEntries_ok_pend l.libraries l.contract_bytecode [] bc pend h1]
    simp only [List.nil_append, pendingEntries]
    rw [List.filterMap_eq_nil_iff]
    intro e he
    obtain ⟨name, lib⟩ := e
    cases lib with
    | Resolved a => rfl
    | Pending c => exact absurd he (hres name c)
  subst hpend
  have hnames : bc.undefined_libraries = [] := by
    cases hu : bc.undefined_libraries with
    | nil => rfl
    | cons n restNames =>
      rw [hu] at h2
      simp only [collectDeps, List.find?_nil] at h2
      cases h2
  subst hd
  refine ⟨hnames, ?_⟩
  rw [to_bytes_isSome_iff]
  exact hnames

/-- C1 witness: the amended theorem at the all-resolved single-slot linker. -/
theorem C1_witness :
    allResolvedDeployment.contract.1.undefined_libraries = [] ∧
      (allResolvedDeployment.contract.1.to_bytes).isSome = true :=
  C1_all_resolved_fully_linked allResolvedLinker allResolvedDeployment (by rfl)
    (by intro name code hmem; simp [allResolvedLinker] at hmem)

/-- C3 counterexample: `add_chain_replay_protection` computes in Rust `u64`
arithmetic, so for `chain_id = 2^63` the product `chain_id * 2` wraps to `0`
and `v` is `35`, not the exact-arithmetic value `recovery_id + 2^63*2 + 35`;
the claim's "exact integer arithmetic for every chain id" fails. -/
theorem C3_counterexample :
    add_chain_replay_protection 0 (some (2 ^ 63)) = 35 ∧
      0 + 2 ^ 63 * 2 + 35 ≠ 35 := by
  constructor
  · unfold add_chain_replay_protection u64Size
    norm_num
  · norm_num

/-- C3 (amended): for recovery ids in `{0,1}`, the signed transaction's `v`
equals `recovery_id + chain_id*2 + 35` when a chain id is present and the
exact value fits in a `u64` (arithmetic wraps modulo `2^64` otherwise), and
`recovery_id + 27` when the chain id is absent; moreover the `v` field of the
signed 9-field list is the minimal big-endian encoding of that value. -/
theorem C3_v_formula (tx : TransactionData) (sig : List Nat)
    (recovery_id chain_id : Nat) (hrid : recovery_id ≤ 1)
    (hfit : recovery_id + 35 + chain_id * 2 < 2 ^ 64) :
    add_chain_replay_protection recovery_id (some chain_id) =
        recovery_id + chain_id * 2 + 35 ∧
      add_chain_replay_protection recovery_id none = recovery_id + 27 ∧
      (tx.rlp_append_signed recovery_id sig (some chain_id)).getD 6 [] =
        beBytes (recovery_id + chain_id * 2 + 35) ∧
      (tx.rlp_append_signed recovery_id sig none).getD 6 [] =
        beBytes (recovery_id + 27) := by
  have hsome : add_chain_replay_protection recovery_id (some chain_id) =
      recovery_id + chain_id * 2 + 35 := by
    unfold add_chain_replay_protection u64Size
    dsimp only
    omega
  have hnone : add_chain_replay_protection recovery_id none =
      recovery_id + 27 := by
    unfold add_chain_replay_protection u64Size
    dsimp only
    omega
  refine ⟨hsome, hnone, ?_, ?_⟩
  · show beBytes (add_chain_replay_protection recovery_id (some chain_id)) =
      beBytes (recovery_id + chain_id * 2 + 35)
    rw [hsome]
  · show beBytes (add_chain_replay_protection recovery_id none) =
      beBytes (recovery_id + 27)
    rw [hnone]

/-- C3 witness: the amended theorem at `recovery_id = 1`, `chain_id = 1`. -/
theorem C3_witness :
    add_chain_replay_protection 1 (some 1) = 1 + 1 * 2 + 35 ∧
      add_chain_replay_protection 1 none = 1 + 27 ∧
      (txA.rlp_append_signed 1 sigLeadZero (some 1)).getD 6 [] =
        beBytes (1 + 1 * 2 + 35) ∧
      (txA.rlp_append_signed 1 sigLeadZero none).getD 6 [] =
        beBytes (1 + 27) :=
  C3_v_formula txA sigLeadZero 1 1 (by decide) (by decide)

/-- C8 counterexample: the configuration of the first
`link_same_library_more_than_once` test case, two `Resolved` entries for
`Library0` against a bytecode with one `Library0` slot, makes `build` fail
with `UnusedDependency("Library0")`, contradicting the claim that duplicate
`Resolved` entries are not a validation error and the build can still
succeed. -/
theorem C8_counterexample :
    dupResolvedLinker.link = .error (.unusedDependency "Library0") := by
  rfl

/-- C8 (amended): `Resolved` entries are applied to the target bytecode in
encounter order, so a second `Resolved` entry for the same name always fails:
once the first entry is linked no placeholder slot with that name remains,
and the second link surfaces `UnusedDependency(name)`. -/
theorem C8_duplicate_resolved_fails (l : Linker)
    (pre mid rest : List (String × Library)) (name : String)
    (a1 a2 : Address) (s : Bytecode × List (String × Bytecode))
    (hlib : l.libraries =
      pre ++ (name, Library.Resolved a1) :: (mid ++ (name, Library.Resolved a2) :: rest))
    (hpre : linkEntries (pre ++ (name, Library.Resolved a1) :: mid)
      l.contract_bytecode [] = .ok s) :
    l.link = .error (.unusedDependency name) := by
  have hnomem : name ∉ placeholderNames s.1 := by
    rw [linkEntries_append] at hpre
    cases h0 : linkEntries pre l.contract_bytecode [] with
    | error e => rw [h0] at hpre; cases hpre
    | ok s0 =>
      rw [h0] at hpre
      dsimp only at hpre
      simp only [linkEntries] at hpre
      cases hl : s0.1.link name a1 with
      | error e => rw [hl] at hpre; cases hpre
      | ok bc2 =>
        rw [hl] at hpre
        dsimp only at hpre
        have h2 := (Bytecode.link_ok s0.1 name a1 bc2 hl).2
        have h3 := linkEntries_ok_placeholders mid bc2 s0.2 s.1 s.2
          (by cases s; exact hpre)
        rw [h3, h2]
        intro hmem
        have := (List.mem_filter.mp ((List.mem_filter.mp hmem).1)).2
        simp at this
  apply Linker.link_error_step1
  have hsplit : l.libraries =
      (pre ++ (name, Library.Resolved a1) :: mid) ++
        ((name, Library.Resolved a2) :: rest) := by
    rw [hlib]
    simp [List.append_assoc]
  rw [hsplit, linkEntries_append, hpre]
  dsimp only
  simp only [linkEntries]
  have hl2 : s.1.link name a2 = .error (.unusedDependency name) := by
    unfold Bytecode.link
    rw [if_neg hnomem]
  rw [hl2]

/-- C8 witness: the amended theorem at the duplicate-resolved test linker. -/
theorem C8_witness :
    dupResolvedLinker.link = .error (.unusedDependency "Library0") :=
  C8_duplicate_resolved_fails dupResolvedLinker [] [] [] "Library0"
    zeroAddress (repeatAddress 1)
    (soloBytecode.subst "Library0" zeroAddress, []) (by rfl) (by rfl)

/-- C9: the unsigned payload is a list of exactly 6 byte-string fields
without a chain id and exactly 9 with one, the extra fields being
`[chain_id, 0, 0]`; the recipient field is the raw 20 address bytes when a
recipient exists and the empty byte string, never the zero address, for
contract creation. -/
theorem C9_unsigned_payload (tx : TransactionData) (n : Nat) :
    (tx.rlp_append_unsigned none).length = 6 ∧
      (tx.rlp_append_unsigned (some n)).length = 9 ∧
      tx.rlp_append_unsigned (some n) =
        tx.rlp_append_unsigned none ++ [beBytes (n % u64Size), [], []] ∧
      (∀ a, tx.«to» = some a →
        (tx.rlp_append_unsigned none).getD 3 [] = a.val ∧
          ((tx.rlp_append_unsigned none).getD 3 []).length = 20 ∧
          (tx.rlp_append_unsigned (some n)).getD 3 [] = a.val) ∧
      (tx.«to» = none →
        (tx.rlp_append_unsigned none).getD 3 [] = [] ∧
          (tx.rlp_append_unsigned (some n)).getD 3 [] = [] ∧
          ([] : List Nat) ≠ zeroAddress.val) := by
  refine ⟨rfl, rfl, by simp [TransactionData.rlp_append_unsigned], ?_, ?_⟩
  · intro a ha
    refine ⟨?_, ?_, ?_⟩
    · show toField tx.«to» = a.val
      rw [ha]
      rfl
    · show (toField tx.«to»).length = 20
      rw [ha]
      exact a.2
    · show toField tx.«to» = a.val
      rw [ha]
      rfl
  · intro ha
    refine ⟨?_, ?_, by decide⟩
    · show toField tx.«to» = []
      rw [ha]
      rfl
    · show toField tx.«to» = []
      rw [ha]
      rfl

/-- C9 witness: the recipient-field conclusions at the two spec signing
vectors, vector A with a recipient and vector B a contract creation. -/
theorem C9_witness :
    ((txA.rlp_append_unsigned none).getD 3 [] = addrA.val ∧
        ((txA.rlp_append_unsigned none).getD 3 []).length = 20 ∧
        (txA.rlp_append_unsigned (some 1)).getD 3 [] = addrA.val) ∧
      ((txB.rlp_append_unsigned none).getD 3 [] = [] ∧
        (txB.rlp_append_unsigned (some 5777)).getD 3 [] = [] ∧
        ([] : List Nat) ≠ zeroAddress.val) :=
  ⟨(C9_unsigned_payload txA 1).2.2.2.1 addrA rfl,
   (C9_unsigned_payload txB 5777).2.2.2.2 rfl⟩

/-- C2 counterexample: with a compact signature whose `r` half is 31 zero
bytes followed by `1`, the `r` field of the signed 9-field list is the
one-byte string `[1]`, not the 32-byte big-endian string, contradicting the
claim that `r` and `s` are encoded as 32-byte big-endian integers even with
leading zero bytes. -/
theorem C2_counterexample :
    (txB.rlp_append_signed 0 sigLeadZero (some 1)).getD 7 [] = [1] ∧
      sigLeadZero.take 32 ≠ [1] ∧ (sigLeadZero.take 32).length = 32 := by
  refine ⟨?_, by decide, by decide⟩
  show beBytes (natOfBytes (sigLeadZero.take 32)) = [1]
  have h1 : natOfBytes (sigLeadZero.take 32) = 1 := by decide
  rw [h1, beBytes_pos 1 (by omega)]
  norm_num [beBytes_zero]

/-- C2 (amended): the signed 9-field list appends `r` and `s` as 256-bit
integers, so each field is the minimal big-endian byte string of the integer
whose big-endian bytes are the first and second 32 signature bytes: the same
integer value, at most 32 bytes, and no leading zero byte. -/
theorem C2_r_s_minimal (tx : TransactionData) (recovery_id : Nat)
    (sig : List Nat) (chain_id : Option Nat)
    (hbytes : ∀ b ∈ sig, b < 256) :
    (tx.rlp_append_signed recovery_id sig chain_id).length = 9 ∧
      (tx.rlp_append_signed recovery_id sig chain_id).getD 7 [] =
        beBytes (natOfBytes (sig.take 32)) ∧
      (tx.rlp_append_signed recovery_id sig chain_id).getD 8 [] =
        beBytes (natOfBytes ((sig.drop 32).take 32)) ∧
      natOfBytes ((tx.rlp_append_signed recovery_id sig chain_id).getD 7 []) =
        natOfBytes (sig.take 32) ∧
      natOfBytes ((tx.rlp_append_signed recovery_id sig chain_id).getD 8 []) =
        natOfBytes ((sig.drop 32).take 32) ∧
      ((tx.rlp_append_signed recovery_id sig chain_id).getD 7 []).length ≤ 32 ∧
      ((tx.rlp_append_signed recovery_id sig chain_id).getD 8 []).length ≤ 32 ∧
      ((tx.rlp_append_signed recovery_id sig chain_id).getD 7 []).head? ≠
        some 0 ∧
      ((tx.rlp_append_signed recovery_id sig chain_id).getD 8 []).head? ≠
        some 0 := by
  have hr : natOfBytes (sig.take 32) < 256 ^ 32 := by
    calc natOfBytes (sig.take 32) < 256 ^ (sig.take 32).length :=
        natOfBytes_lt _ fun b hb => hbytes b (List.take_subset _ _ hb)
    _ ≤ 256 ^ 32 := Nat.pow_le_pow_right (by omega)
        (by simp)
  have hs : natOfBytes ((sig.drop 32).take 32) < 256 ^ 32 := by
    calc natOfBytes ((sig.drop 32).take 32)
        < 256 ^ ((sig.drop 32).take 32).length :=
        natOfBytes_lt _ fun b hb =>
          hbytes b (List.drop_subset _ _ (List.take_subset _ _ hb))
    _ ≤ 256 ^ 32 := Nat.pow_le_pow_right (by omega)
        (by simp)
  exact ⟨rfl, rfl, rfl, natOfBytes_beBytes _, natOfBytes_beBytes _,
    beBytes_length_le 32 _ hr, beBytes_length_le 32 _ hs,
    beBytes_head_ne_zero _, beBytes_head_ne_zero _⟩

/-- C2 witness: the amended theorem at the vector-B transaction with the
leading-zero signature. -/
theorem C2_witness :
    (txB.rlp_append_signed 0 sigLeadZero (some 5777)).length = 9 ∧
      (txB.rlp_append_signed 0 sigLeadZero (some 5777)).getD 7 [] =
        beBytes (natOfBytes (sigLeadZero.take 32)) ∧
      (txB.rlp_append_signed 0 sigLeadZero (some 5777)).getD 8 [] =
        beBytes (natOfBytes ((sigLeadZero.drop 32).take 32)) ∧
      natOfBytes ((txB.rlp_append_signed 0 sigLeadZero (some 5777)).getD 7 []) =
        natOfBytes (sigLeadZero.take 32) ∧
      natOfBytes ((txB.rlp_append_signed 0 sigLeadZero (some 5777)).getD 8 []) =
        natOfBytes ((sigLeadZero.drop 32).take 32) ∧
      ((txB.rlp_append_signed 0 sigLeadZero (some 5777)).getD 7 []).length ≤ 32 ∧
      ((txB.rlp_append_signed 0 sigLeadZero (some 5777)).getD 8 []).length ≤ 32 ∧
      ((txB.rlp_append_signed 0 sigLeadZero (some 5777)).getD 7 []).head? ≠
        some 0 ∧
      ((txB.rlp_append_signed 0 sigLeadZero (some 5777)).getD 8 []).head? ≠
        some 0 :=
  C2_r_s_minimal txB 0 sigLeadZero (some 5777) (by decide)

/-- C4: for every successful build, `libraries_to_deploy` lists the pending
libraries in the first-occurrence order of the placeholders of the target
bytecode restricted to unresolved names, and this order agrees between any
two configurations that are permutations of one another over the same target
bytecode. -/
theorem C4_deploy_order (l1 l2 : Linker) (d1 d2 : Deployment)
    (hbc : l2.contract_bytecode = l1.contract_bytecode)
    (hperm : l2.libraries.Perm l1.libraries)
    (h1 : l1.link = .ok d1) (h2 : l2.link = .ok d2) :
    d1.libraries.map Prod.fst =
      (dedupFirst (placeholderNames l1.contract_bytecode)).filter
        (fun n => decide (n ∉ resolvedNames l1.libraries)) ∧
      d2.libraries.map Prod.fst = d1.libraries.map Prod.fst := by
  have e1 := link_ok_firstOccur l1 d1 h1
  have e2 := link_ok_firstOccur l2 d2 h2
  refine ⟨e1, ?_⟩
  rw [e1, e2, hbc]
  refine List.filter_congr fun n _ => ?_
  have hmem : n ∈ resolvedNames l2.libraries ↔ n ∈ resolvedNames l1.libraries :=
    (hperm.filterMap _).mem_iff
  rw [decide_eq_decide, hmem]

/-- C4 witness: the `link_contract` configuration and a permutation of it. -/
theorem C4_witness :
    testDeployment.libraries.map Prod.fst =
      (dedupFirst (placeholderNames testLinker.contract_bytecode)).filter
        (fun n => decide (n ∉ resolvedNames testLinker.libraries)) ∧
      testDeployment.libraries.map Prod.fst =
        testDeployment.libraries.map Prod.fst :=
  C4_deploy_order testLinker testLinkerPerm testDeployment testDeployment
    (by rfl) (by decide) (by rfl) (by rfl)

/-- C5: `build` fails with `UnusedDependency` both when a second `Pending`
entry is accumulated for a name already pending (provided the entries before
it processed without error), and when a pending entry is left over after the
placeholder walk, that leftover name matching no placeholder of the linked
bytecode. -/
theorem C5_unused_dependency (l : Linker) :
    (∀ pre name code code0 rest s,
        l.libraries = pre ++ (name, Library.Pending code) :: rest →
        (name, Library.Pending code0) ∈ pre →
        linkEntries pre l.contract_bytecode [] = .ok s →
        l.link = .error (.unusedDependency name)) ∧
      (∀ bc pend libs nm cd restPend,
        linkEntries l.libraries l.contract_bytecode [] = .ok (bc, pend) →
        collectDeps bc.undefined_libraries pend = .ok (libs, (nm, cd) :: restPend) →
        l.link = .error (.unusedDependency nm) ∧
          nm ∉ bc.undefined_libraries) := by
  constructor
  · intro pre name code code0 rest s hlib hmem hpre
    obtain ⟨bc1, pend1⟩ := s
    have hkeys : name ∈ pend1.map Prod.fst := by
      have hp := linkEntries_ok_pend pre l.contract_bytecode [] bc1 pend1 hpre
      rw [hp, List.nil_append]
      have hin : (name, code0) ∈ pendingEntries pre := by
        unfold pendingEntries
        exact List.mem_filterMap.mpr ⟨(name, Library.Pending code0), hmem, rfl⟩
      exact List.mem_map_of_mem Prod.fst hin
    apply Linker.link_error_step1
    rw [hlib, linkEntries_append, hpre]
    dsimp only
    simp only [linkEntries]
    rw [if_pos hkeys]
  · intro bc pend libs nm cd restPend h1 h2
    refine ⟨Linker.link_error_leftover l bc pend libs nm cd restPend h1 h2, ?_⟩
    have hnd : (pend.map Prod.fst).Nodup :=
      linkEntries_ok_nodup l.libraries l.contract_bytecode [] bc pend h1
        (by simp)
    have hlo := collectDeps_ok_leftover bc.undefined_libraries pend libs
      ((nm, cd) :: restPend) hnd h2 (nm, cd) (by simp)
    simpa using hlo

/-- C5 witness: the duplicate-pending and leftover-pending test linkers. -/
theorem C5_witness :
    dupPendingLinker.link = .error (.unusedDependency "Library0") ∧
      (leftoverLinker.link = .error (.unusedDependency "Library0") ∧
        "Library0" ∉ Bytecode.undefined_libraries [.byte 0]) :=
  ⟨(C5_unused_dependency dupPendingLinker).1
      [("Library0", .Pending [.byte 0])] "Library0" [.byte 0] [.byte 0] []
      (soloBytecode, [("Library0", [.byte 0])]) (by rfl) (by simp) (by rfl),
   (C5_unused_dependency leftoverLinker).2 [.byte 0]
      [("Library0", [.byte 0])] [] "Library0" [.byte 0] []
      (by rfl) (by rfl)⟩

/-- C6: a `Pending` entry whose name is reached in the placeholder walk but
whose own bytecode still has an unresolved placeholder slot makes `build`
fail with `NestedDependencies(name)`; no transitive resolution is
attempted. -/
theorem C6_nested_dependencies (l : Linker) (bc : Bytecode)
    (pend pend2 : List (String × Bytecode)) (pre rest : List String)
    (name : String) (code : Bytecode) (libsPre : List (String × List Nat))
    (h1 : linkEntries l.libraries l.contract_bytecode [] = .ok (bc, pend))
    (hu : bc.undefined_libraries = pre ++ name :: rest)
    (h2 : collectDeps pre pend = .ok (libsPre, pend2))
    (hf : pend2.find? (fun p => p.1 == name) = some (name, code))
    (hn : code.to_bytes = none) :
    l.link = .error (.nestedDependencies name) := by
  apply Linker.link_error_step2 l bc pend _ h1
  rw [hu, collectDeps_append, h2]
  dsimp only
  simp only [collectDeps]
  rw [hf]
  dsimp only
  rw [hn]

/-- C6 witness: the `link_nested_dependency` test linker. -/
theorem C6_witness :
    nestedLinker.link = .error (.nestedDependencies "Library0") :=
  C6_nested_dependencies nestedLinker soloBytecode
    [("Library0", [.byte 0, .placeholder "Library1"])]
    [("Library0", [.byte 0, .placeholder "Library1"])] [] [] "Library0"
    [.byte 0, .placeholder "Library1"] []
    (by rfl) (by rfl) (by rfl) (by rfl) (by rfl)

/-- C7: a placeholder name reached in the walk for which no `Pending` entry
was ever accumulated makes `build` fail with `MissingDependency(name)`. -/
theorem C7_missing_dependency (l : Linker) (bc : Bytecode)
    (pend pend2 : List (String × Bytecode)) (pre rest : List String)
    (name : String) (libsPre : List (String × List Nat))
    (h1 : linkEntries l.libraries l.contract_bytecode [] = .ok (bc, pend))
    (hu : bc.undefined_libraries = pre ++ name :: rest)
    (h2 : collectDeps pre pend = .ok (libsPre, pend2))
    (hnp : ∀ code, (name, Library.Pending code) ∉ l.libraries) :
    l.link = .error (.missingDependency name) := by
  have hnk : ∀ x ∈ pend, x.1 ≠ name := by
    intro x hx
    have hp := linkEntries_ok_pend l.libraries l.contract_bytecode [] bc pend h1
    rw [hp, List.nil_append] at hx
    unfold pendingEntries at hx
    obtain ⟨e, hmem, hfe⟩ := List.mem_filterMap.mp hx
    obtain ⟨en, el⟩ := e
    cases el with
    | Resolved a => simp at hfe
    | Pending c =>
      have hfe' : (en, c) = x := by simpa using hfe
      subst hfe'
      intro hxn
      dsimp only at hxn
      subst hxn
      exact hnp c hmem
  have hfind : pend2.find? (fun p => p.1 == name) = none := by
    rw [List.find?_eq_none]
    intro x hx
    have hxp := hnk x ((collectDeps_ok_sublist pre pend libsPre pend2 h2).subset hx)
    simpa using hxp
  apply Linker.link_error_step2 l bc pend _ h1
  rw [hu, collectDeps_append, h2]
  dsimp only
  simp only [collectDeps]
  rw [hfind]

/-- C7 witness: the `link_unused_library` test linker, whose only placeholder
has no entry at all. -/
theorem C7_witness :
    missingLinker.link = .error (.missingDependency "Library0") :=
  C7_missing_dependency missingLinker soloBytecode [] [] [] [] "Library0" []
    (by rfl) (by rfl) (by rfl) (by intro code h; simp [missingLinker] at h)

/-- C10: invariant of every successful `link`: the placeholder names still
undefined in the returned contract bytecode are exactly the names of
`libraries_to_deploy`, in the same order, and whenever any library remains to
deploy the contract bytecode does not yet convert to dense bytes. -/
theorem C10_undefined_eq_deploy_names (l : Linker) (d : Deployment)
    (h : l.link = .ok d) :
    d.contract.1.undefined_libraries = d.libraries.map Prod.fst ∧
      (d.libraries ≠ [] → d.contract.1.to_bytes = none) := by
  have hc := link_ok_contract_names l d h
  refine ⟨hc.1, ?_⟩
  intro hne
  cases hb : d.contract.1.to_bytes with
  | none => rfl
  | some bytes =>
    have hnil : d.contract.1.undefined_libraries = [] := by
      rw [← to_bytes_isSome_iff, hb]
      rfl
    rw [hc.1] at hnil
    exact absurd (List.map_eq_nil_iff.mp hnil) hne

/-- C10 witness: the `link_contract` deployment keeps exactly `Library1`
undefined. -/
theorem C10_witness :
    testDeployment.contract.1.undefined_libraries =
        testDeployment.libraries.map Prod.fst ∧
      testDeployment.contract.1.to_bytes = none :=
  ⟨(C10_undefined_eq_deploy_names testLinker testDeployment (by rfl)).1,
   (C10_undefined_eq_deploy_names testLinker testDeployment (by rfl)).2
     (by decide)⟩
